import Mathlib

/-!
Shallow embedding of QConvert (src/QConvert.py): the ConversionThread worker
(command construction and process execution) and the FileConverter bulk-mode
job enumeration, together with theorems settling the specification claims.

Python strings are modelled as Lean `String` (with `String.data` for
character-level reasoning); captured process streams are modelled as already
decoded text.  The process environment (whether the external tool launches,
and with which exit status / captured streams) is an explicit parameter.
-/

/-- The data carried by one conversion job: the five constructor arguments of
`ConversionThread.__init__` (equivalently, the spec's ConversionRequest). -/
structure ConversionRequest where
  input_file : String
  output_file : String
  input_format : String
  output_format : String
  pdf_engine : String
deriving DecidableEq, Repr

/-- The argument vector built at the start of `ConversionThread.run`:
`command = ['pandoc', '-f', input_format, '-t', output_format, '-o', output_file, input_file]`,
then `command.insert(1, '--pdf-engine=' + pdf_engine)` when `output_format == 'pdf'`
(Python `list.insert(1, x)` places `x` at index 1, i.e. right after `'pandoc'`). -/
def buildCommand (r : ConversionRequest) : List String :=
  let command := ["pandoc", "-f", r.input_format, "-t", r.output_format, "-o", r.output_file, r.input_file]
  if r.output_format = "pdf" then
    command.take 1 ++ ["--pdf-engine=" ++ r.pdf_engine] ++ command.drop 1
  else
    command

/-- What the external process did, when it launched: its exit status and the
decoded text of its captured standard output and standard error. -/
structure ProcessResult where
  returncode : Int
  stdout : String
  stderr : String
deriving DecidableEq, Repr

/-- The environment's response to `subprocess.Popen`: either the process ran
to completion, or launching raised an exception with the given message. -/
inductive LaunchResult where
  | ok (res : ProcessResult)
  | failed (message : String)
deriving DecidableEq, Repr

/-- The Qt signals `ConversionThread` can emit, in emission order. -/
inductive Event where
  | progress (value : Nat)
  | output (text : String)
  | error (text : String)
  | finished (success : Bool)
deriving DecidableEq, Repr

/-- An apostrophe (U+0027), the quote character Python `repr` puts around
strings that contain no quote characters themselves. -/
def pyQuote : String := String.singleton (Char.ofNat 39)

/-- Python `repr` of a string, for strings containing no quote or backslash
characters (the only case the command strings here exercise). -/
def pyStrRepr (s : String) : String := pyQuote ++ s ++ pyQuote

/-- Python `str` of a list of strings: `['a', 'b', ...]`. -/
def pyListRepr (l : List String) : String :=
  "[" ++ String.intercalate ", " (l.map pyStrRepr) ++ "]"

/-- `str(subprocess.CalledProcessError(returncode, cmd, ...))` for a
nonnegative return code: `Command '<str(cmd)>' returned non-zero exit status <n>.`
(Negative codes — signal deaths — format differently and are not modelled;
no claim depends on them.)  Note the exception's `output` attribute never
appears in this string. -/
def calledProcessErrorStr (returncode : Int) (cmd : List String) : String :=
  "Command " ++ pyStrRepr (pyListRepr cmd) ++ " returned non-zero exit status "
    ++ toString returncode ++ "."

/-- `ConversionThread.run`, as the sequence of signals it emits given what the
environment does.  Source behaviour: build the command; `Popen` (a launch
failure jumps to `except`, which emits `error(str(e))` then `finished(False)`);
emit `progress(50)`; `communicate()`; if the return code is non-zero, raise
`CalledProcessError(returncode, command, output=stderr)` — caught by the same
`except`, so the emitted error text is `str` of that exception; otherwise emit
`progress(100)`, `output(stdout.decode())`, `finished(True)`. -/
def ConversionThread.run (r : ConversionRequest) (launch : LaunchResult) : List Event :=
  match launch with
  | .failed msg => [.error msg, .finished false]
  | .ok res =>
    if res.returncode ≠ 0 then
      [.progress 50, .error (calledProcessErrorStr res.returncode (buildCommand r)),
       .finished false]
    else
      [.progress 50, .progress 100, .output res.stdout, .finished true]

/-- The text of the first `output` signal in a trace, if any. -/
def capturedOutput (evs : List Event) : Option String :=
  evs.findSome? fun e => match e with | .output s => some s | _ => none

/-- The text of the first `error` signal in a trace, if any. -/
def errorDetail (evs : List Event) : Option String :=
  evs.findSome? fun e => match e with | .error s => some s | _ => none

/-- The flag of the first `finished` signal in a trace, if any. -/
def finishedFlag (evs : List Event) : Option Bool :=
  evs.findSome? fun e => match e with | .finished b => some b | _ => none

/-- The spec's ConversionOutcome: success flag, captured standard output
(present only on success), error detail (present only on failure). -/
structure ConversionOutcome where
  succeeded : Bool
  captured_output : Option String
  error_detail : Option String
deriving DecidableEq, Repr

/-- `execute(request) -> ConversionOutcome`: the outcome a subscriber observes
from one run of `ConversionThread.run`, read off the emitted signals. -/
def execute (r : ConversionRequest) (launch : LaunchResult) : ConversionOutcome :=
  let evs := ConversionThread.run r launch
  { succeeded := finishedFlag evs = some true
    captured_output := capturedOutput evs
    error_detail := errorDetail evs }

/-- Python `s.split('.')` on a character list: maximal split at every dot
(`''.split` gives `['']`, `'a.'.split` gives `['a','']`, etc.). -/
def pySplitDot : List Char → List (List Char)
  | [] => [[]]
  | c :: rest =>
    match pySplitDot rest with
    | [] => if c = '.' then [[], []] else [[c]]
    | h :: t => if c = '.' then [] :: h :: t else (c :: h) :: t

/-- Python `'.'.join(parts)` on character lists. -/
def pyJoinDot : List (List Char) → List Char
  | [] => []
  | [x] => x
  | x :: y :: ys => x ++ '.' :: pyJoinDot (y :: ys)

/-- Python `os.path.join(a, b)` (POSIX, two arguments): an absolute second
component replaces the first; otherwise the components are concatenated,
inserting a separator unless the first is empty or already ends in one. -/
def pyPathJoin (a b : String) : String :=
  if b.data.head? = some '/' then b
  else if a.data = [] ∨ a.data.getLast? = some '/' then ⟨a.data ++ b.data⟩
  else ⟨a.data ++ '/' :: b.data⟩

/-- The supported input formats offered by the input dropdown. -/
def SUPPORTED_INPUT_FORMATS : List String := ["epub", "docx", "md", "html", "txt"]

/-- The supported output formats offered by the output dropdown. -/
def SUPPORTED_OUTPUT_FORMATS : List String := ["pdf", "docx", "html", "md", "txt"]

/-- `FileConverter.convert_bulk_files`, as the list of conversion requests it
constructs, in construction order.  The `os.walk` result is the explicit
`walk` parameter: one `(root, files)` pair per visited directory, in visit
order.  For each file whose lowercased name ends in `'.' + input_format`,
the source computes `input_file = os.path.join(root, file)`, drops everything
after the last dot of `input_file` (`split('.')[:-1]` rejoined with `'.'`),
and sets `output_file = os.path.join(root, joined + '.' + output_format)`. -/
def FileConverter.convert_bulk_files (walk : List (String × List String))
    (input_format output_format pdf_engine : String) : List ConversionRequest :=
  walk.flatMap fun rootFiles =>
    rootFiles.2.filterMap fun file =>
      if ('.' :: input_format.data).isSuffixOf (file.data.map Char.toLower) then
        let input_file := pyPathJoin rootFiles.1 file
        let joined_input_file : String := ⟨pyJoinDot (pySplitDot input_file.data).dropLast⟩
        let output_file := pyPathJoin rootFiles.1 (joined_input_file ++ "." ++ output_format)
        some ⟨input_file, output_file, input_format, output_format, pdf_engine⟩
      else none

/-- The spec's description of bulk-mode job construction (amended to the
case-insensitive matching the code performs): one job per file whose
lowercased name ends in `'.' + input_format`, whose output path is the input
path with that trailing suffix replaced by `'.' + output_format` — same
directory, same base name. -/
def bulkJobsSpec (walk : List (String × List String))
    (input_format output_format pdf_engine : String) : List ConversionRequest :=
  walk.flatMap fun rootFiles =>
    (rootFiles.2.filter fun file =>
        ('.' :: input_format.data).isSuffixOf (file.data.map Char.toLower)).map fun file =>
      let ip := pyPathJoin rootFiles.1 file
      { input_file := ip
        output_file := ⟨ip.data.take (ip.data.length - (input_format.length + 1)) ++ '.' :: output_format.data⟩
        input_format := input_format
        output_format := output_format
        pdf_engine := pdf_engine }

/-! ## Helper lemmas -/

/-- The engine flag is at least 13 characters long, so it never coincides with
any of the short constant arguments of the command. -/
theorem engineFlag_ne_short (e s : String) (hs : s.length < 13) :
    "--pdf-engine=" ++ e ≠ s := by
  intro hcontra
  have hlen := congrArg String.length hcontra
  rw [String.length_append] at hlen
  have h13 : ("--pdf-engine=" : String).length = 13 := rfl
  omega

/-! ## Claim theorems -/

/-- Claim C5: for every ConversionRequest whose external tool process launches
and exits with status 0, `execute` returns a success outcome whose
`captured_output` equals the process's captured standard output, decoded as
text (and no error detail). -/
theorem C5_zero_exit_success_outcome (r : ConversionRequest) (res : ProcessResult)
    (h : res.returncode = 0) :
    execute r (.ok res) = ⟨true, some res.stdout, none⟩ := by
  simp [execute, ConversionThread.run, h, capturedOutput, errorDetail, finishedFlag,
    List.findSome?]

/-- Witness for C5 at a concrete request and process result. -/
theorem C5_zero_exit_success_outcome_witness :
    execute ⟨"in.md", "out.html", "md", "html", "xelatex"⟩ (.ok ⟨0, "fine", ""⟩) =
      ⟨true, some "fine", none⟩ :=
  C5_zero_exit_success_outcome ⟨"in.md", "out.html", "md", "html", "xelatex"⟩ ⟨0, "fine", ""⟩ rfl

set_option maxRecDepth 4096 in
/-- Claim C1 (code evidence): at a concrete request whose process exits with
status 1 and standard error `pandoc err`, the outcome is a failure, but its
`error_detail` is `str(CalledProcessError(...))` — the generic
`Command returned non-zero exit status` text — not the captured standard
error, which the source stores in the exception's unused `output` attribute. -/
theorem C1_nonzero_exit_error_detail_is_exception_text :
    (execute ⟨"in.md", "out.html", "md", "html", "xelatex"⟩ (.ok ⟨1, "", "pandoc err"⟩)).succeeded
        = false ∧
    (execute ⟨"in.md", "out.html", "md", "html", "xelatex"⟩ (.ok ⟨1, "", "pandoc err"⟩)).error_detail
        = some (calledProcessErrorStr 1
            (buildCommand ⟨"in.md", "out.html", "md", "html", "xelatex"⟩)) ∧
    (execute ⟨"in.md", "out.html", "md", "html", "xelatex"⟩ (.ok ⟨1, "", "pandoc err"⟩)).error_detail
        ≠ some "pandoc err" := by
  refine ⟨by decide, by decide, by decide⟩

/-- Claim C2 counterexample: for a concrete PDF request the built command does
not have the claimed shape `pandoc -f md -t pdf --pdf-engine=xelatex -o out.pdf in.md`
— the engine flag is inserted at index 1, before `-f`, not after `-t`. -/
theorem C2_counterexample :
    buildCommand ⟨"in.md", "out.pdf", "md", "pdf", "xelatex"⟩ ≠
      ["pandoc", "-f", "md", "-t", "pdf", "--pdf-engine=xelatex", "-o", "out.pdf", "in.md"] := by
  decide

/-- Claim C2 (amended): the built argument vector is
`pandoc [--pdf-engine=<engine>] -f <input_format> -t <output_format> -o <output_path> <input_path>`:
the engine flag, present exactly when the output format is `pdf`, comes
immediately after the tool name and before the format flags. -/
theorem C2_command_shape (r : ConversionRequest) :
    buildCommand r =
      if r.output_format = "pdf" then
        ["pandoc", "--pdf-engine=" ++ r.pdf_engine, "-f", r.input_format, "-t",
         r.output_format, "-o", r.output_file, r.input_file]
      else
        ["pandoc", "-f", r.input_format, "-t", r.output_format, "-o", r.output_file,
         r.input_file] := by
  by_cases h : r.output_format = "pdf" <;> simp [buildCommand, h]

/-- Claim C4: provided no field of the request happens to equal the engine-flag
string itself, the argument `--pdf-engine=<engine>` (value = the request's
engine) occurs in the built command if and only if the output format is `pdf`. -/
theorem C4_pdf_engine_flag_iff (r : ConversionRequest)
    (h : ("--pdf-engine=" ++ r.pdf_engine) ∉
      [r.input_format, r.output_format, r.output_file, r.input_file]) :
    ("--pdf-engine=" ++ r.pdf_engine) ∈ buildCommand r ↔ r.output_format = "pdf" := by
  simp only [List.mem_cons, List.not_mem_nil, or_false, not_or] at h
  obtain ⟨h1, h2, h3, h4⟩ := h
  by_cases hp : r.output_format = "pdf" <;>
    simp [buildCommand, hp, h1, h2, h3, h4,
      engineFlag_ne_short r.pdf_engine "pandoc" (by decide),
      engineFlag_ne_short r.pdf_engine "-f" (by decide),
      engineFlag_ne_short r.pdf_engine "-t" (by decide),
      engineFlag_ne_short r.pdf_engine "-o" (by decide)]

/-- Witness for C4 at a concrete PDF request. -/
theorem C4_pdf_engine_flag_iff_witness :
    ("--pdf-engine=" ++ "xelatex") ∈ buildCommand ⟨"in.md", "out.pdf", "md", "pdf", "xelatex"⟩
      ↔ "pdf" = "pdf" :=
  C4_pdf_engine_flag_iff ⟨"in.md", "out.pdf", "md", "pdf", "xelatex"⟩ (by decide)

/-- Claim C7: for every ConversionRequest whose external process fails to
launch, `execute` yields a failure outcome through the same failure channel as
a non-zero exit (error signal followed by `finished(False)`), with the launch
exception's message as `error_detail`, which is in particular non-empty. -/
theorem C7_launch_failure_outcome (r : ConversionRequest) (msg : String)
    (h : msg ≠ "") :
    execute r (.failed msg) = ⟨false, none, some msg⟩ ∧
      (execute r (.failed msg)).error_detail ≠ some "" := by
  refine ⟨?_, ?_⟩ <;>
    simp [execute, ConversionThread.run, capturedOutput, errorDetail, finishedFlag,
      List.findSome?, h]

/-- Witness for C7 at a concrete request and launch-exception message. -/
theorem C7_launch_failure_outcome_witness :
    execute ⟨"in.md", "out.html", "md", "html", "xelatex"⟩
        (.failed "No such file or directory: pandoc") =
      ⟨false, none, some "No such file or directory: pandoc"⟩ ∧
    (execute ⟨"in.md", "out.html", "md", "html", "xelatex"⟩
        (.failed "No such file or directory: pandoc")).error_detail ≠ some "" :=
  C7_launch_failure_outcome ⟨"in.md", "out.html", "md", "html", "xelatex"⟩
    "No such file or directory: pandoc" (by decide)

/-- Claim C8: whenever the process launches, the first emitted signal is the
fixed midpoint progress notification 50, and the terminal progress value 100
is emitted exactly when the process exits with status zero — never on the
non-zero-exit path. -/
theorem C8_progress_signals (r : ConversionRequest) (res : ProcessResult) :
    (ConversionThread.run r (.ok res)).head? = some (.progress 50) ∧
      (Event.progress 100 ∈ ConversionThread.run r (.ok res) ↔ res.returncode = 0) := by
  by_cases h : res.returncode = 0 <;> simp [ConversionThread.run, h]

/-- Claim C9: every execution's outcome is mutually exclusive — on success
there is no error detail, and on failure there is no captured output; no
execution produces both notifications. -/
theorem C9_outcome_mutually_exclusive (r : ConversionRequest) (launch : LaunchResult) :
    ((execute r launch).succeeded = true ∧ (execute r launch).error_detail = none) ∨
      ((execute r launch).succeeded = false ∧ (execute r launch).captured_output = none) := by
  match launch with
  | .failed msg =>
    right
    simp [execute, ConversionThread.run, capturedOutput, errorDetail, finishedFlag,
      List.findSome?]
  | .ok res =>
    by_cases h : res.returncode = 0
    · left
      simp [execute, ConversionThread.run, capturedOutput, errorDetail, finishedFlag,
        List.findSome?, h]
    · right
      simp [execute, ConversionThread.run, capturedOutput, errorDetail, finishedFlag,
        List.findSome?, h]

/-! ## Character and split/join lemmas for the bulk-mode path computation -/

/-- Only a dot lowercases to a dot (`Char.toLower` moves only `A`–`Z`). -/
theorem toLower_eq_dot {c : Char} (h : c.toLower = '.') : c = '.' := by
  rw [Char.toLower] at h
  by_cases hc : c.toNat ≥ 65 ∧ c.toNat ≤ 90
  · rw [if_pos hc] at h
    exfalso
    have hv : (c.toNat + 32).isValidChar := by left; omega
    have ht : (Char.ofNat (c.toNat + 32)).toNat = c.toNat + 32 := by
      rw [Char.ofNat, dif_pos hv]; rfl
    have hd := congrArg Char.toNat h
    rw [ht] at hd
    have hdotv : ('.' : Char).toNat = 46 := rfl
    omega
  · rw [if_neg hc] at h
    exact h

/-- `split` never returns an empty list of parts. -/
theorem pySplitDot_ne_nil (l : List Char) : pySplitDot l ≠ [] := by
  cases l with
  | nil => simp [pySplitDot]
  | cons c rest =>
    cases h : pySplitDot rest with
    | nil => simp [pySplitDot, h]; split <;> simp
    | cons a b => simp [pySplitDot, h]; split <;> simp

/-- Splitting a dot-free string yields the single part it already is. -/
theorem pySplitDot_no_dot (u : List Char) (h : '.' ∉ u) : pySplitDot u = [u] := by
  induction u with
  | nil => rfl
  | cons c rest ih =>
    have hc : ¬ c = '.' := by
      intro hh
      exact h (by simp [hh])
    have hr : '.' ∉ rest := by
      intro hh
      exact h (List.mem_cons_of_mem c hh)
    simp [pySplitDot, ih hr, hc]

/-- Splitting at the last dot: when `u` is dot-free, the parts of
`t ++ '.' :: u` are the parts of `t` followed by `u`. -/
theorem pySplitDot_append_dot (t u : List Char) (hu : '.' ∉ u) :
    pySplitDot (t ++ '.' :: u) = pySplitDot t ++ [u] := by
  induction t with
  | nil => simp [pySplitDot, pySplitDot_no_dot u hu]
  | cons c t ih =>
    obtain ⟨a, b, hab⟩ : ∃ a b, pySplitDot t = a :: b := by
      cases hh : pySplitDot t with
      | nil => exact absurd hh (pySplitDot_ne_nil t)
      | cons a b => exact ⟨a, b, rfl⟩
    have hcons : pySplitDot (t ++ '.' :: u) = a :: (b ++ [u]) := by
      rw [ih, hab]
      rfl
    by_cases hc : c = '.'
    · simp [pySplitDot, hcons, hab, hc]
    · simp [pySplitDot, hcons, hab, hc]

/-- `join` of a list of parts whose first part gains a leading character. -/
theorem pyJoinDot_cons_cons (c : Char) (h : List Char) (t : List (List Char)) :
    pyJoinDot ((c :: h) :: t) = c :: pyJoinDot (h :: t) := by
  cases t with
  | nil => rfl
  | cons y ys => simp [pyJoinDot]

/-- `'.'.join(s.split('.'))` is the identity. -/
theorem pyJoinDot_pySplitDot (t : List Char) : pyJoinDot (pySplitDot t) = t := by
  induction t with
  | nil => rfl
  | cons c rest ih =>
    obtain ⟨a, b, hab⟩ : ∃ a b, pySplitDot rest = a :: b := by
      cases hh : pySplitDot rest with
      | nil => exact absurd hh (pySplitDot_ne_nil rest)
      | cons a b => exact ⟨a, b, rfl⟩
    by_cases hc : c = '.'
    · have h1 : pySplitDot (c :: rest) = [] :: a :: b := by
        simp [pySplitDot, hab, hc]
      have h2 : pyJoinDot ([] :: a :: b) = '.' :: pyJoinDot (a :: b) := by
        simp [pyJoinDot]
      rw [h1, h2, ← hab, ih, hc]
    · have h1 : pySplitDot (c :: rest) = (c :: a) :: b := by
        simp [pySplitDot, hab, hc]
      rw [h1, pyJoinDot_cons_cons, ← hab, ih]

/-- `os.path.join` keeps the leading separator of an absolute first component. -/
theorem pyPathJoin_head (root f : String) (h : root.data.head? = some '/') :
    (pyPathJoin root f).data.head? = some '/' := by
  unfold pyPathJoin
  by_cases hb : f.data.head? = some '/'
  · rw [if_pos hb]
    exact hb
  · rw [if_neg hb]
    have hne : root.data ≠ [] := by
      intro hh
      rw [hh] at h
      simp at h
    obtain ⟨x, xs, hx⟩ := List.exists_cons_of_ne_nil hne
    by_cases ha : root.data = [] ∨ root.data.getLast? = some '/'
    · rw [if_pos ha]
      show (root.data ++ f.data).head? = some '/'
      rw [hx] at h ⊢
      simpa using h
    · rw [if_neg ha]
      show (root.data ++ '/' :: f.data).head? = some '/'
      rw [hx] at h ⊢
      simpa using h

/-- `os.path.join` ends in its second component. -/
theorem pyPathJoin_suffix (root f : String) : f.data <:+ (pyPathJoin root f).data := by
  unfold pyPathJoin
  by_cases hb : f.data.head? = some '/'
  · rw [if_pos hb]
  · rw [if_neg hb]
    by_cases ha : root.data = [] ∨ root.data.getLast? = some '/'
    · rw [if_pos ha]
      exact List.suffix_append root.data f.data
    · rw [if_neg ha]
      exact ⟨root.data ++ ['/'], by simp⟩

/-- A string whose lowercasing ends in `'.' :: lfin` (with `lfin` dot-free)
splits as `t ++ '.' :: u` where `u` is dot-free, lowercases to `lfin`, and has
the length of `lfin`. -/
theorem suffix_dot_decomp (s lfin : List Char) (hdot : '.' ∉ lfin)
    (h : ('.' :: lfin) <:+ s.map Char.toLower) :
    ∃ t u, s = t ++ '.' :: u ∧ u.map Char.toLower = lfin ∧ '.' ∉ u ∧
      u.length = lfin.length := by
  obtain ⟨p, hp⟩ := h
  have hdrop : (s.drop p.length).map Char.toLower = '.' :: lfin := by
    rw [List.map_drop, ← hp]
    simp
  obtain ⟨c, u, hcu⟩ : ∃ c u, s.drop p.length = c :: u := by
    cases hh : s.drop p.length with
    | nil =>
      rw [hh] at hdrop
      simp at hdrop
    | cons c u => exact ⟨c, u, rfl⟩
  rw [hcu] at hdrop
  simp only [List.map_cons, List.cons.injEq] at hdrop
  obtain ⟨hc, hu⟩ := hdrop
  have hc' : c = '.' := toLower_eq_dot hc
  refine ⟨s.take p.length, u, ?_, hu, ?_, ?_⟩
  · conv_lhs => rw [← List.take_append_drop p.length s]
    rw [hcu, hc']
  · intro hmem
    have hmem2 : Char.toLower '.' ∈ u.map Char.toLower := List.mem_map_of_mem _ hmem
    have hlow : Char.toLower '.' = '.' := rfl
    rw [hlow, hu] at hmem2
    exact hdot hmem2
  · rw [← hu, List.length_map]

/-- The output path computed by the bulk loop for a matching file equals the
input path with the trailing `'.' + input_format` suffix replaced by
`'.' + output_format`, provided the directory root is absolute and the
format tag is dot-free. -/
theorem bulk_output_path (root f fin fout : String)
    (hroot : root.data.head? = some '/')
    (hfin : '.' ∉ fin.data)
    (hmatch : ('.' :: fin.data) <:+ f.data.map Char.toLower) :
    pyPathJoin root ((⟨pyJoinDot (pySplitDot (pyPathJoin root f).data).dropLast⟩ : String)
        ++ "." ++ fout)
      = ⟨(pyPathJoin root f).data.take ((pyPathJoin root f).data.length - (fin.length + 1))
          ++ '.' :: fout.data⟩ := by
  have hs_head : (pyPathJoin root f).data.head? = some '/' := pyPathJoin_head root f hroot
  have hsuffix : ('.' :: fin.data) <:+ (pyPathJoin root f).data.map Char.toLower :=
    hmatch.trans (List.IsSuffix.map Char.toLower (pyPathJoin_suffix root f))
  obtain ⟨t, u, hst, hul, hund, hulen⟩ := suffix_dot_decomp _ _ hfin hsuffix
  have hjoin : pyJoinDot (pySplitDot (pyPathJoin root f).data).dropLast = t := by
    rw [hst, pySplitDot_append_dot t u hund, List.dropLast_concat, pyJoinDot_pySplitDot]
  have ht_head : t.head? = some '/' := by
    rw [hst] at hs_head
    cases t with
    | nil => simp at hs_head
    | cons a l => simpa using hs_head
  have harg : (((⟨t⟩ : String)) ++ "." ++ fout).data = t ++ '.' :: fout.data := by
    rw [String.data_append, String.data_append]
    show (t ++ ['.']) ++ fout.data = t ++ '.' :: fout.data
    simp
  have harghead : (((⟨t⟩ : String)) ++ "." ++ fout).data.head? = some '/' := by
    rw [harg]
    cases t with
    | nil => simp at ht_head
    | cons a l =>
      simp only [List.head?_cons, Option.some.injEq] at ht_head
      simp [ht_head]
  have hLHS : pyPathJoin root ((⟨t⟩ : String) ++ "." ++ fout) = ⟨t ++ '.' :: fout.data⟩ := by
    unfold pyPathJoin
    rw [if_pos harghead]
    exact String.ext harg
  have hlen : (pyPathJoin root f).data.length - (fin.length + 1) = t.length := by
    rw [hst]
    have hfl : fin.length = fin.data.length := rfl
    simp [List.length_append, hfl, ← hulen]
  have htake : (pyPathJoin root f).data.take ((pyPathJoin root f).data.length - (fin.length + 1))
      = t := by
    rw [hlen, hst]
    exact List.take_left t ('.' :: u)
  rw [hjoin, hLHS, htake]

/-- `flatMap` respects pointwise equality on the list's members. -/
theorem flatMap_congr_mem {α β : Type} (l : List α) (F G : α → List β)
    (h : ∀ a ∈ l, F a = G a) : l.flatMap F = l.flatMap G := by
  induction l with
  | nil => rfl
  | cons x xs ih =>
    rw [List.flatMap_cons, List.flatMap_cons, h x (List.mem_cons_self x xs),
      ih fun a ha => h a (List.mem_cons_of_mem x ha)]

/-- One directory of the bulk loop: the requests constructed from one
`(root, files)` pair are exactly one request per matching file, with the
output path given by trailing-suffix replacement. -/
theorem bulk_pair (root : String) (files : List String) (fin fout eng : String)
    (hroot : root.data.head? = some '/') (hfin : '.' ∉ fin.data) :
    (files.filterMap fun file =>
      if ('.' :: fin.data).isSuffixOf (file.data.map Char.toLower) then
        some (⟨pyPathJoin root file,
          pyPathJoin root
            ((⟨pyJoinDot (pySplitDot (pyPathJoin root file).data).dropLast⟩ : String)
              ++ "." ++ fout),
          fin, fout, eng⟩ : ConversionRequest)
      else none) =
    (files.filter fun file =>
        ('.' :: fin.data).isSuffixOf (file.data.map Char.toLower)).map fun file =>
      (⟨pyPathJoin root file,
        ⟨(pyPathJoin root file).data.take
            ((pyPathJoin root file).data.length - (fin.length + 1)) ++ '.' :: fout.data⟩,
        fin, fout, eng⟩ : ConversionRequest) := by
  induction files with
  | nil => rfl
  | cons f fs ih =>
    rw [List.filterMap_cons, List.filter_cons]
    by_cases hcond : ('.' :: fin.data).isSuffixOf (f.data.map Char.toLower) = true
    · rw [if_pos hcond, if_pos hcond, List.map_cons, ih,
        bulk_output_path root f fin fout hroot hfin (List.isSuffixOf_iff_suffix.mp hcond)]
    · rw [if_neg hcond, if_neg hcond, ih]

/-- Claim C3 counterexample: the file `A.MD` does not end in `.md` (the
selected input format's suffix, compared literally), yet bulk mode constructs
a job for it — so files not ending in the suffix can still produce a job. -/
theorem C3_counterexample :
    (FileConverter.convert_bulk_files [("/d", ["A.MD"])] "md" "html" "xelatex").length = 1 ∧
      ("." ++ "md").data.isSuffixOf "A.MD".data = false := by
  refine ⟨by decide, by decide⟩

/-- Claim C3 (amended to the case-insensitive matching the code performs):
in bulk mode over a walk whose directory roots are absolute, with a dot-free
input format tag, exactly the files whose lowercased name ends in
`'.' + input_format` produce one job each, in walk order, and each job's
output path is its input path with that trailing suffix replaced by
`'.' + output_format` — same directory; all other files produce no job. -/
theorem C3_bulk_jobs (walk : List (String × List String)) (fin fout eng : String)
    (hroot : ∀ p ∈ walk, p.1.data.head? = some '/')
    (hfin : '.' ∉ fin.data) :
    FileConverter.convert_bulk_files walk fin fout eng = bulkJobsSpec walk fin fout eng := by
  unfold FileConverter.convert_bulk_files bulkJobsSpec
  apply flatMap_congr_mem
  intro p hp
  exact bulk_pair p.1 p.2 fin fout eng (hroot p hp) hfin

/-- Witness for C3 at the spec's own example: directory `/d` holding `a.md`,
`b.md`, `c.txt` with input format `md` — exactly the two `.md` files produce
jobs, with outputs `/d/a.html` and `/d/b.html`. -/
theorem C3_bulk_jobs_witness :
    FileConverter.convert_bulk_files [("/d", ["a.md", "b.md", "c.txt"])] "md" "html" "xelatex"
      = bulkJobsSpec [("/d", ["a.md", "b.md", "c.txt"])] "md" "html" "xelatex" ∧
    FileConverter.convert_bulk_files [("/d", ["a.md", "b.md", "c.txt"])] "md" "html" "xelatex"
      = [⟨"/d/a.md", "/d/a.html", "md", "html", "xelatex"⟩,
         ⟨"/d/b.md", "/d/b.html", "md", "html", "xelatex"⟩] :=
  ⟨C3_bulk_jobs [("/d", ["a.md", "b.md", "c.txt"])] "md" "html" "xelatex"
      (by decide) (by decide),
   by decide⟩

/-- Claim C10: bulk-mode suffix matching is case-insensitive — a file whose
name ends in the input suffix in any letter case is selected and produces a
job. -/
theorem C10_case_insensitive_selection (root f fin fout eng : String)
    (h : ('.' :: fin.data) <:+ f.data.map Char.toLower) :
    (FileConverter.convert_bulk_files [(root, [f])] fin fout eng).length = 1 := by
  simp [FileConverter.convert_bulk_files, h]

/-- Witness for C10 at `A.MD` with input format `md`. -/
theorem C10_case_insensitive_selection_witness :
    (FileConverter.convert_bulk_files [("/d", ["A.MD"])] "md" "html" "xelatex").length = 1 :=
  C10_case_insensitive_selection "/d" "A.MD" "md" "html" "xelatex"
    (List.isSuffixOf_iff_suffix.mp (by decide))
